import Mathlib

/-!
Shallow embedding of the master-picklist-matching-plus-domain tool
(src/app.py and src/master-picklist-matching-main/app.py).
Python strings are modelled as Lean `String`/`List Char` with an ASCII
reading of the regex classes \w and \s and of str.lower().
-/

/-- A Python value as it can appear in a cell or argument: either the
`None` null value or a string.  `str()` and truthiness are modelled below. -/
inductive PyVal where
  | pyNone : PyVal
  | pyStr (s : String) : PyVal
deriving DecidableEq, Repr

/-- Python `str(v)`. -/
def pyToString : PyVal → String
  | .pyNone => "None"
  | .pyStr s => s

/-- Python truthiness of a value (`None` and `""` are falsy). -/
def pyTruthy : PyVal → Bool
  | .pyNone => false
  | .pyStr s => decide (s ≠ "")

/-- Python regex class \s (ASCII part): space, tab, newline, vertical tab, form feed, carriage return. -/
def pyIsSpace (c : Char) : Bool :=
  c == ' ' || c == '\t' || c == '\n' || c == '\x0b' || c == '\x0c' || c == '\r'

/-- Python regex class \w (ASCII reading): letters, digits, underscore. -/
def isWordChar (c : Char) : Bool := c.isAlphanum || c == '_'

/-- Python str.lower() (ASCII reading), character-wise. -/
def lowerL (l : List Char) : List Char := l.map Char.toLower

/-- Model of re.sub with "[^\w\s]" and empty replacement: delete every char
that is neither a word char nor whitespace. -/
def scrubL (l : List Char) : List Char := l.filter (fun c => isWordChar c || pyIsSpace c)

/-- Helper for `pyWords`: accumulates the current in-progress token (reversed). -/
def wordsAux : List Char → List Char → List (List Char)
  | [], acc => if acc = [] then [] else [acc.reverse]
  | c :: cs, acc =>
    if pyIsSpace c then
      if acc = [] then wordsAux cs [] else acc.reverse :: wordsAux cs []
    else wordsAux cs (c :: acc)

/-- Python str.split() with no argument: split on whitespace runs, no empty tokens. -/
def pyWords (l : List Char) : List (List Char) := wordsAux l []

/-- Python " ".join(...) on a list of tokens. -/
def joinSp : List (List Char) → List Char
  | [] => []
  | [t] => t
  | t :: ts => t ++ ' ' :: joinSp ts

/-- The SUFFIXES set of src/app.py (corporate legal and descriptive suffixes). -/
def SUFFIXES : List String :=
  ["ltd","limited","co","company","corp","corporation","inc","incorporated","plc","public",
   "llc","lp","llp","ulc","pc","pllc","sa","ag","nv","se","bv","oy","ab","aps","as","kft",
   "zrt","rt","sarl","sas","spa","gmbh","ug","kg","bvba","cvba","nv","pte","pty","bhd","sdn",
   "kabushiki","kaisha","kk","godo","gk","dmcc","pjsc","psc","jsc","ltda","srl","s.r.l.",
   "group","holdings","holding","intl","international","global","ventures","solutions","systems",
   "technology","technologies","services","enterprise","enterprises","industries","industry",
   "consulting","partners","management","capital","investments","investment","resources","media",
   "marketing","communications","digital","creative","agency","engineering","finance","financial",
   "energy","power","renewables","medical","healthcare","hospital","labs","pharma","realestate",
   "developers","construction","travel","tourism","transport","shipping","mining","metals",
   "automotive","education","training","academy","university","institute"]

/-- The SUFFIXES set as char lists, for token filtering. -/
def suffixSet : List (List Char) := SUFFIXES.map String.data

/-- The STOPWORDS set of src/app.py. -/
def STOPWORDS : List String := ["net","pro","it","web","data","info","biz"]

/-- THRESHOLD = 70, the lower bound of the Unsure band in src/app.py. -/
def THRESHOLD : ℚ := 70

/-- Core of `_normalize_tokens` on a char list: lowercase, delete punctuation,
split on whitespace, drop SUFFIXES tokens, re-join with single spaces. -/
def normTokensL (l : List Char) : List Char :=
  joinSp ((pyWords (scrubL (lowerL l))).filter (fun t => decide (t ∉ suffixSet)))

/-- `_normalize_tokens` of src/app.py (applies `str()` to its argument first). -/
def normalize_tokens (text : PyVal) : String := String.mk (normTokensL (pyToString text).data)

/-- Boolean check that `p` is a leading segment of `l` (Python str.startswith). -/
def startsWithSeq : List Char → List Char → Bool
  | [], _ => true
  | _ :: _, [] => false
  | p :: ps, c :: cs => p == c && startsWithSeq ps cs

/-- Boolean check that `p` occurs contiguously inside `l` (Python `in` on strings). -/
def containsSeq (p : List Char) : List Char → Bool
  | [] => p == []
  | c :: cs => startsWithSeq p (c :: cs) || containsSeq p cs

/-- Helper for `make_acronym`: collect word chars standing at a word boundary
(re.findall with pattern \b\w).  The Bool records whether the previous char was a word char. -/
def acronymAux : List Char → Bool → List Char
  | [], _ => []
  | c :: cs, prevWord =>
    (if isWordChar c && !prevWord then [c] else []) ++ acronymAux cs (isWordChar c)

/-- `_make_acronym` of src/app.py: first letter of each word of str(name), lowercased. -/
def make_acronym (name : PyVal) : String :=
  String.mk (lowerL (acronymAux (pyToString name).data false))

/-- Python s.replace(" ", ""): delete space characters. -/
def despaceL (l : List Char) : List Char := l.filter (fun c => !(c == ' '))

/-- Model of re.sub with "[^\w]" and empty replacement: keep only word chars. -/
def wordOnlyL (l : List Char) : List Char := l.filter isWordChar

/-- The `dom` local of `score_domain_company`: str(domain_raw).lower() with
every non-word char deleted. -/
def dom_core (v : PyVal) : String := String.mk (wordOnlyL (lowerL (pyToString v).data))

/-- One dynamic-programming row update for the longest common subsequence.
Walks the second string `b` together with the tail of the previous row,
carrying the diagonal and left values. -/
def lcsRowAux (c : Char) : List Char → List Nat → Nat → Nat → List Nat
  | [], _, _, _ => []
  | b :: bs, prevTail, diag, left =>
    let up := prevTail.headD 0
    let cur := if b == c then diag + 1 else max left up
    cur :: lcsRowAux c bs prevTail.tail up cur

/-- Next LCS row from the previous row, processing one char of the first string. -/
def lcsStep (c : Char) (b : List Char) (prev : List Nat) : List Nat :=
  0 :: lcsRowAux c b (prev.drop 1) (prev.headD 0) 0

/-- Length of the longest common subsequence of two char lists. -/
def lcsLen (a b : List Char) : Nat :=
  (a.foldl (fun row c => lcsStep c b row) (List.replicate (b.length + 1) 0)).getLastD 0

/-- rapidfuzz fuzz.ratio: normalized InDel similarity on the 0-100 scale,
equal to 200*LCS/(len1+len2); two empty strings score 100. -/
def indelScore (a b : List Char) : ℚ :=
  if a.length + b.length = 0 then 100
  else (200 * (lcsLen a b : ℚ)) / ((a.length : ℚ) + (b.length : ℚ))

/-- The alignment windows rapidfuzz's sliding comparison inspects when the
needle `s` is matched inside the haystack `l`: the proper prefixes of `l`
shorter than `s`, every window of `l` of the needle's length, and the
proper suffixes of `l` shorter than `s`. -/
def winList (s l : List Char) : List (List Char) :=
  (((List.range s.length).drop 1).map (fun i => l.take i))
    ++ ((List.range (l.length - s.length + 1)).map (fun i => (l.drop i).take s.length))
    ++ (((List.range l.length).drop (l.length - s.length + 1)).map (fun i => l.drop i))

/-- Best window score of the needle `s` inside the haystack `l` (score floor 0). -/
def slideImpl (s l : List Char) : ℚ :=
  (winList s l).foldl (fun acc w => max acc (indelScore s w)) 0

/-- rapidfuzz fuzz.partial-ratio: the shorter string slides over the longer;
for equal lengths both directions are tried unless the first already scores 100. -/
def slidingScore (a b : List Char) : ℚ :=
  let s := if a.length ≤ b.length then a else b
  let l := if a.length ≤ b.length then b else a
  let r := slideImpl s l
  if a.length = b.length ∧ r ≠ 100 then max r (slideImpl l s) else r

/-- Insert a string into a lexicographically sorted list. -/
def insertSorted (x : String) : List String → List String
  | [] => [x]
  | y :: ys => if x < y then x :: y :: ys else y :: insertSorted x ys

/-- Insertion sort of strings, modelling Python sorted() on a set of tokens. -/
def sortStrs : List String → List String
  | [] => []
  | x :: xs => insertSorted x (sortStrs xs)

/-- rapidfuzz fuzz.token-set-ratio: compare the joined differences of the two
token sets, and (when the intersection is nonempty) also each token set against
the intersection alone, taking the best of the three scores. -/
def tokenSetScore (aL bL : List Char) : ℚ :=
  let tokens_a := ((pyWords aL).map String.mk).dedup
  let tokens_b := ((pyWords bL).map String.mk).dedup
  if tokens_a = [] ∨ tokens_b = [] then 0
  else
    let sect := tokens_a.filter (fun t => decide (t ∈ tokens_b))
    let diff_ab := tokens_a.filter (fun t => decide (t ∉ tokens_b))
    let diff_ba := tokens_b.filter (fun t => decide (t ∉ tokens_a))
    if sect ≠ [] ∧ (diff_ab = [] ∨ diff_ba = []) then 100
    else
      let dabj := joinSp ((sortStrs diff_ab).map String.data)
      let dbaj := joinSp ((sortStrs diff_ba).map String.data)
      let ab_len : ℚ := dabj.length
      let ba_len : ℚ := dbaj.length
      let sect_len : ℚ := (joinSp (sect.map String.data)).length
      let bonus : ℚ := if sect_len = 0 then 0 else 1
      let sect_ab_len := sect_len + bonus + ab_len
      let sect_ba_len := sect_len + bonus + ba_len
      let distN : Nat := dabj.length + dbaj.length - 2 * lcsLen dabj dbaj
      let result := 100 - 100 * (distN : ℚ) / (sect_ab_len + sect_ba_len)
      if sect_len = 0 then result
      else
        let sect_ab_r := 100 * (1 - (bonus + ab_len) / (sect_len + sect_ab_len))
        let sect_ba_r := 100 * (1 - (bonus + ba_len) / (sect_len + sect_ba_len))
        max result (max sect_ab_r sect_ba_r)

/-- The fused fuzzy score of `score_domain_company`: the larger of the sliding
(partial) score and the token-set score of `dom` against `comp`. -/
def fused_score (company_raw domain_raw : PyVal) : ℚ :=
  max (slidingScore (dom_core domain_raw).data (normalize_tokens company_raw).data)
      (tokenSetScore (dom_core domain_raw).data (normalize_tokens company_raw).data)

/-- The result quadruple of `score_domain_company`. -/
structure Verdict where
  is_match : Bool
  score : ℚ
  method : String
  status : String
deriving DecidableEq, Repr

/-- `score_domain_company` of src/app.py: the layered cascade of guard,
generic-label, containment, acronym and fuzzy stages. -/
def score_domain_company (company_raw domain_raw : PyVal) : Verdict :=
  if pyTruthy company_raw = false ∨ pyTruthy domain_raw = false then
    ⟨false, 0, "none", "Likely Not Match"⟩
  else
    let comp := normalize_tokens company_raw
    let dom := dom_core domain_raw
    if comp = "" ∨ dom = "" then ⟨false, 0, "none", "Likely Not Match"⟩
    else if dom.length < 4 ∨ dom ∈ STOPWORDS then ⟨false, 0, "generic", "Unsure – Please Check"⟩
    else if containsSeq dom.data (despaceL comp.data) then ⟨true, 100, "contains", "Likely Match"⟩
    else if 3 ≤ (make_acronym company_raw).length ∧
            (dom = make_acronym company_raw ∨ startsWithSeq (make_acronym company_raw).data dom.data) then
      ⟨true, 95, "acronym", "Likely Match"⟩
    else
      let fused := fused_score company_raw domain_raw
      if 90 ≤ fused then ⟨true, fused, "fuzzy", "Likely Match"⟩
      else if THRESHOLD ≤ fused then ⟨true, fused, "fuzzy", "Unsure – Please Check"⟩
      else ⟨false, fused, "fuzzy", "Likely Not Match"⟩

/-- The Domain_Match cell written by run_matching for one record. -/
def match_cell (ok : Bool) : String := if ok then "Yes" else "No"

/-- Strip a leading http:// or https:// scheme (regex ^https?://). -/
def drop_scheme (l : List Char) : List Char :=
  if startsWithSeq "http://".data l then l.drop 7
  else if startsWithSeq "https://".data l then l.drop 8
  else l

/-- Delete everything from the first slash onward (regex /.*$ with empty
replacement; model for strings without newlines). -/
def drop_after_slash (l : List Char) : List Char := l.takeWhile (fun c => !(c == '/'))

/-- Strip a leading "www." (regex ^www\.). -/
def drop_www (l : List Char) : List Char :=
  if startsWithSeq "www.".data l then l.drop 4 else l

/-- The brandy suffixes stripped from the domain core in `_clean_domain_series`. -/
def DOMAIN_SUFFIX_WORDS : List String :=
  ["andco","group","intl","international","global","solutions","systems","holdings","ltd","inc"]

/-- Boolean check that `p` is a trailing segment of `l` (Python str.endswith). -/
def endsWithSeq (p l : List Char) : Bool := startsWithSeq p.reverse l.reverse

/-- Remove the single longest trailing brandy suffix, the effect of re.sub with
the anchored alternation (andco|group|...)$ and empty replacement. -/
def stripBrandSuffix (l : List Char) : List Char :=
  let best := (DOMAIN_SUFFIX_WORDS.filter (fun w => endsWithSeq w.data l)).foldl
    (fun acc w => match acc with
      | none => some w
      | some v => if v.length < w.length then some w else some v) none
  match best with
  | none => l
  | some w => l.take (l.length - w.length)

/-- Python "a.b.c".split("."): split on every dot, possibly yielding empty segments. -/
def splitDotAux : List Char → List Char → List (List Char)
  | [], acc => [acc.reverse]
  | c :: cs, acc => if c == '.' then acc.reverse :: splitDotAux cs [] else splitDotAux cs (c :: acc)

/-- Split a char list on dots. -/
def splitDot (l : List Char) : List (List Char) := splitDotAux l []

/-- Element-wise model of `_clean_domain_series` of src/app.py: lowercase,
strip scheme, path and www., split on dots, take the second-to-last segment
(pandas .str[-2]; NaN — modelled as none — when fewer than two segments),
then strip a trailing brandy suffix. -/
def clean_domain_elem (v : PyVal) : Option String :=
  let t := drop_www (drop_after_slash (drop_scheme (lowerL (pyToString v).data)))
  let segs := splitDot t
  if 2 ≤ segs.length then some (String.mk (stripBrandSuffix (segs.getD (segs.length - 2) [])))
  else none

/-- Whether the char following a matched pattern keeps the trailing \b word boundary. -/
def boundaryAfterOk (p l : List Char) : Bool :=
  match l.drop p.length with
  | [] => true
  | d :: _ => !(isWordChar d)

/-- Word-boundary search: does the pattern `p` (starting and ending in word chars)
occur in the text with \b on both sides?  The Bool carries whether the previous
char was a word char. -/
def wordOccurAux (p : List Char) : List Char → Bool → Bool
  | [], _ => false
  | c :: cs, prevWord =>
    (!prevWord && startsWithSeq p (c :: cs) && boundaryAfterOk p (c :: cs))
      || wordOccurAux p cs (isWordChar c)

/-- re.search of a single \b-delimited keyword inside a string. -/
def hasWord (w : String) (s : String) : Bool := wordOccurAux w.data s.data false

/-- re.search of an alternation of \b-delimited keywords. -/
def hasAnyWord (ws : List String) (s : String) : Bool := ws.any (fun w => hasWord w s)

/-- Python str.strip(): drop leading and trailing whitespace. -/
def stripL (l : List Char) : List Char :=
  ((l.dropWhile (fun c => pyIsSpace c)).reverse.dropWhile (fun c => pyIsSpace c)).reverse

/-- Python str.strip() on a String. -/
def pyStrip (s : String) : String := String.mk (stripL s.data)

/-- Python str.lower() on a String (ASCII reading). -/
def pyLower (s : String) : String := String.mk (lowerL s.data)

/-- Keyword lists of `parse_seniority`, in the source's precedence order. -/
def CSUITE_WORDS : List String := ["chief","cio","cto","ceo","cfo","ciso","cpo","cso","coo","chro","president"]

def VP_WORDS : List String := ["vice president","vp"]

def HEAD_WORDS : List String := ["head"]

def DIRECTOR_WORDS : List String := ["director"]

def MANAGER_WORDS : List String := ["manager","mgr"]

def SENIOR_WORDS : List String := ["senior","sr","lead","principal"]

def ENTRY_WORDS : List String := ["intern","trainee","assistant","graduate"]

def TECH_WORDS : List String := ["engineer","architect","analyst","developer","consultant","scientist","technician","designer","associate","coordinator"]

/-- `parse_seniority` of both app variants: first matching tier in the fixed
precedence order wins; non-string titles default to Entry. -/
def parse_seniority (title : PyVal) : String × String :=
  match title with
  | .pyNone => ("Entry", "default: no seniority term found")
  | .pyStr s =>
    let t := pyStrip (pyLower s)
    if hasAnyWord CSUITE_WORDS t then ("C Suite", "keyword: c-level")
    else if hasAnyWord VP_WORDS t then ("VP", "keyword: vp")
    else if hasAnyWord HEAD_WORDS t then ("Head", "keyword: head")
    else if hasAnyWord DIRECTOR_WORDS t then ("Director", "keyword: director")
    else if hasAnyWord MANAGER_WORDS t then ("Manager", "keyword: manager/mgr")
    else if hasAnyWord SENIOR_WORDS t then ("Senior", "keyword: senior/lead")
    else if hasAnyWord ENTRY_WORDS t then ("Entry", "keyword: entry-level term")
    else if hasAnyWord TECH_WORDS t then ("Entry", "default: technical role")
    else ("Entry", "default: none found")

/-- The picklist dictionary of run_matching: stripped-lowercased value mapping
to the stripped canonical form; later duplicates overwrite earlier ones. -/
def pick_map (pickVals : List String) : List (String × String) :=
  pickVals.map (fun v => (pyLower (pyStrip v), pyStrip v))

/-- Dictionary lookup in `pick_map` (the last binding of a key wins, as in a
Python dict comprehension). -/
def map_lookup (m : List (String × String)) (k : String) : Option String :=
  (m.reverse.find? (fun e => e.1 == k)).map (fun e => e.2)

/-- The per-record loop of run_matching for one field pair, with the running
record index: returns the Match column, the written-back values, and the
excel rows (index + 2) flagged as corrected. -/
def collect_pass (pickVals : List String) : Nat → List String → List String × List String × List Nat
  | _, [] => ([], [], [])
  | i, val :: rest =>
    let r := collect_pass pickVals (i + 1) rest
    match map_lookup (pick_map pickVals) (pyLower (pyStrip val)) with
    | some canon =>
      ("Yes" :: r.1, canon :: r.2.1, (if canon ≠ val then [i + 2] else []) ++ r.2.2)
    | none => ("No" :: r.1, val :: r.2.1, r.2.2)

/-- Outcome of run_matching for one configured field pair. -/
structure PairResult where
  annots : List String
  newVals : Option (List String)
  corrected : List Nat
deriving DecidableEq, Repr

/-- run_matching for one field pair: when master and picklist columns are both
present, run the matching loop; otherwise broadcast "Column Missing" and leave
the master column untouched. -/
def run_pair (masterVals : Option (List String)) (pickVals : Option (List String)) (nRows : Nat) : PairResult :=
  match masterVals, pickVals with
  | some mv, some pv =>
    let r := collect_pass pv 0 mv
    ⟨r.1, some r.2.1, r.2.2⟩
  | mv, _ => ⟨List.replicate nRows "Column Missing", mv, []⟩


theorem wordsAux_nil (acc : List Char) : wordsAux [] acc = if acc = [] then [] else [acc.reverse] := rfl

theorem wordsAux_cons (c : Char) (cs acc : List Char) : wordsAux (c :: cs) acc =
    if pyIsSpace c then (if acc = [] then wordsAux cs [] else acc.reverse :: wordsAux cs [])
    else wordsAux cs (c :: acc) := rfl

theorem normTokensL_def (l : List Char) : normTokensL l =
    joinSp ((pyWords (scrubL (lowerL l))).filter (fun t => decide (t ∉ suffixSet))) := rfl

theorem toLower_toLower (c : Char) : (c.toLower).toLower = c.toLower := by
  unfold Char.toLower
  by_cases h : c.toNat ≥ 65 ∧ c.toNat ≤ 90
  · rw [if_pos h]
    have hv : Nat.isValidChar (c.toNat + 32) := Or.inl (by omega)
    have ht : (Char.ofNat (c.toNat + 32)).toNat = c.toNat + 32 := by
      simp only [Char.ofNat]
      rw [dif_pos hv]
      simp [Char.toNat, UInt32.toNat, Char.ofNatAux, BitVec.toNat_ofNatLt]
    rw [if_neg (by omega)]
  · rw [if_neg h, if_neg h]

/-- Tokens produced by `wordsAux` are nonempty, whitespace-free, and draw their
characters from the input or the accumulator. -/
theorem wordsAux_good : ∀ (l acc : List Char), (∀ c ∈ acc, pyIsSpace c = false) →
    ∀ t ∈ wordsAux l acc, t ≠ [] ∧ ∀ c ∈ t, pyIsSpace c = false ∧ (c ∈ l ∨ c ∈ acc)
  | [], acc, hacc => by
    rw [wordsAux_nil]
    by_cases h : acc = []
    · simp [h]
    · rw [if_neg h]
      intro t ht
      rcases List.mem_singleton.mp ht with rfl
      refine ⟨by simpa using h, ?_⟩
      intro c hc
      rw [List.mem_reverse] at hc
      exact ⟨hacc c hc, Or.inr hc⟩
  | a :: as, acc, hacc => by
    rw [wordsAux_cons]
    by_cases hsp : pyIsSpace a
    · rw [if_pos hsp]
      by_cases h : acc = []
      · rw [if_pos h]
        intro t ht
        rcases wordsAux_good as [] (by simp) t ht with ⟨h1, h2⟩
        refine ⟨h1, fun c hc => ?_⟩
        rcases h2 c hc with ⟨hc1, hc2 | hc2⟩
        · exact ⟨hc1, Or.inl (List.mem_cons_of_mem _ hc2)⟩
        · simp at hc2
      · rw [if_neg h]
        intro t ht
        rcases List.mem_cons.mp ht with rfl | ht
        · refine ⟨by simpa using h, fun c hc => ?_⟩
          rw [List.mem_reverse] at hc
          exact ⟨hacc c hc, Or.inr hc⟩
        · rcases wordsAux_good as [] (by simp) t ht with ⟨h1, h2⟩
          refine ⟨h1, fun c hc => ?_⟩
          rcases h2 c hc with ⟨hc1, hc2 | hc2⟩
          · exact ⟨hc1, Or.inl (List.mem_cons_of_mem _ hc2)⟩
          · simp at hc2
    · rw [if_neg hsp]
      intro t ht
      have hacc' : ∀ c ∈ a :: acc, pyIsSpace c = false := by
        intro c hc
        rcases List.mem_cons.mp hc with rfl | hc
        · simpa using hsp
        · exact hacc c hc
      rcases wordsAux_good as (a :: acc) hacc' t ht with ⟨h1, h2⟩
      refine ⟨h1, fun c hc => ?_⟩
      rcases h2 c hc with ⟨hc1, hc2 | hc2⟩
      · exact ⟨hc1, Or.inl (List.mem_cons_of_mem _ hc2)⟩
      · rcases List.mem_cons.mp hc2 with rfl | hc2
        · exact ⟨hc1, Or.inl (List.mem_cons_self _ _)⟩
        · exact ⟨hc1, Or.inr hc2⟩

/-- Pushing a whitespace-free token through `wordsAux` loads it into the accumulator. -/
theorem wordsAux_append (t : List Char) (ht : ∀ c ∈ t, pyIsSpace c = false) :
    ∀ (l acc : List Char), wordsAux (t ++ l) acc = wordsAux l (t.reverse ++ acc) := by
  induction t with
  | nil => intro l acc; simp
  | cons a t ih =>
    intro l acc
    have ha : pyIsSpace a = false := ht a (List.mem_cons_self _ _)
    have ht' : ∀ c ∈ t, pyIsSpace c = false := fun c hc => ht c (List.mem_cons_of_mem _ hc)
    show wordsAux (a :: (t ++ l)) acc = _
    rw [wordsAux_cons, if_neg (by simp [ha]), ih ht' l (a :: acc)]
    congr 1
    simp

/-- Splitting the space-joined token list recovers the tokens, provided each
token is nonempty and whitespace-free. -/
theorem pyWords_joinSp : ∀ (ts : List (List Char)),
    (∀ t ∈ ts, t ≠ [] ∧ ∀ c ∈ t, pyIsSpace c = false) → pyWords (joinSp ts) = ts
  | [], _ => rfl
  | [t], h => by
    rcases h t (List.mem_singleton.mpr rfl) with ⟨h1, h2⟩
    have ht2 := wordsAux_append t h2 [] []
    simp only [List.append_nil] at ht2
    show wordsAux t [] = [t]
    rw [ht2, wordsAux_nil, if_neg (by simpa using h1)]
    simp
  | t :: t' :: ts, h => by
    rcases h t (List.mem_cons_self _ _) with ⟨h1, h2⟩
    show wordsAux (t ++ ' ' :: joinSp (t' :: ts)) [] = t :: t' :: ts
    rw [wordsAux_append t h2 _ []]
    rw [wordsAux_cons, if_pos (by decide), if_neg (by simpa using h1)]
    have := pyWords_joinSp (t' :: ts) (fun u hu => h u (List.mem_cons_of_mem _ hu))
    unfold pyWords at this
    rw [this]
    simp

/-- A map that fixes every element of a list fixes the list. -/
theorem map_fix {f : Char → Char} : ∀ {l : List Char}, (∀ c ∈ l, f c = c) → l.map f = l
  | [], _ => rfl
  | c :: cs, h => by
    rw [List.map_cons, h c (List.mem_cons_self _ _), map_fix (fun x hx => h x (List.mem_cons_of_mem _ hx))]

/-- Characters of a space-join are either the separator or token characters. -/
theorem mem_joinSp : ∀ (ts : List (List Char)) (c : Char), c ∈ joinSp ts → c = ' ' ∨ ∃ t ∈ ts, c ∈ t
  | [], c, h => by simp [joinSp] at h
  | [t], c, h => Or.inr ⟨t, List.mem_singleton.mpr rfl, h⟩
  | t :: t' :: ts, c, h => by
    rcases List.mem_append.mp h with h | h
    · exact Or.inr ⟨t, List.mem_cons_self _ _, h⟩
    · rcases List.mem_cons.mp h with rfl | h
      · exact Or.inl rfl
      · rcases mem_joinSp (t' :: ts) c h with h | ⟨u, hu, hc⟩
        · exact Or.inl h
        · exact Or.inr ⟨u, List.mem_cons_of_mem _ hu, hc⟩

/-- Every character of a normalized string is a lowercase-fixed word character
or a space. -/
theorem normTokensL_chars (l : List Char) :
    ∀ c ∈ normTokensL l, (isWordChar c || pyIsSpace c) = true ∧ Char.toLower c = c ∧
      (c = ' ' ∨ pyIsSpace c = false) := by
  intro c hc
  rcases mem_joinSp _ c hc with rfl | ⟨t, ht, hct⟩
  · exact ⟨by decide, by decide, Or.inl rfl⟩
  · have htmem := (List.mem_filter.mp ht).1
    rcases wordsAux_good _ [] (by simp) t htmem with ⟨-, h2⟩
    rcases h2 c hct with ⟨hsp, hmem | hmem⟩
    · have hkeep := (List.mem_filter.mp hmem).2
      have hin := (List.mem_filter.mp hmem).1
      rcases List.mem_map.mp hin with ⟨c₀, -, rfl⟩
      refine ⟨hkeep, toLower_toLower c₀, Or.inr hsp⟩
    · simp at hmem

theorem normTokensL_idem (l : List Char) : normTokensL (normTokensL l) = normTokensL l := by
  have hchars := normTokensL_chars l
  have hlower : lowerL (normTokensL l) = normTokensL l :=
    map_fix (fun c hc => (hchars c hc).2.1)
  have hscrub : scrubL (normTokensL l) = normTokensL l :=
    List.filter_eq_self.mpr (fun c hc => (hchars c hc).1)
  have hts : ∀ t ∈ (pyWords (scrubL (lowerL l))).filter (fun t => decide (t ∉ suffixSet)),
      t ≠ [] ∧ ∀ c ∈ t, pyIsSpace c = false := by
    intro t ht
    have htmem := (List.mem_filter.mp ht).1
    rcases wordsAux_good _ [] (by simp) t htmem with ⟨h1, h2⟩
    exact ⟨h1, fun c hc => (h2 c hc).1⟩
  have hwords : pyWords (normTokensL l) =
      (pyWords (scrubL (lowerL l))).filter (fun t => decide (t ∉ suffixSet)) :=
    pyWords_joinSp _ hts
  have hfilter : ((pyWords (scrubL (lowerL l))).filter (fun t => decide (t ∉ suffixSet))).filter
      (fun t => decide (t ∉ suffixSet)) =
      (pyWords (scrubL (lowerL l))).filter (fun t => decide (t ∉ suffixSet)) :=
    List.filter_eq_self.mpr (fun t ht => (List.mem_filter.mp ht).2)
  conv_lhs => rw [normTokensL_def]
  rw [hlower, hscrub, hwords, hfilter, normTokensL_def]

/-- Any of the two guard stages of `score_domain_company` (falsy input, or
empty normalized company / empty domain core) yields the fixed quadruple
(False, 0, "none", "Likely Not Match"). -/
theorem score_guard_eq (c d : PyVal)
    (h : pyTruthy c = false ∨ pyTruthy d = false ∨ normalize_tokens c = "" ∨ dom_core d = "") :
    score_domain_company c d = ⟨false, 0, "none", "Likely Not Match"⟩ := by
  unfold score_domain_company
  rcases h with h | h | h | h
  · rw [if_pos (Or.inl h)]
  · rw [if_pos (Or.inr h)]
  · by_cases h1 : pyTruthy c = false ∨ pyTruthy d = false
    · rw [if_pos h1]
    · rw [if_neg h1, if_pos (Or.inl h)]
  · by_cases h1 : pyTruthy c = false ∨ pyTruthy d = false
    · rw [if_pos h1]
    · rw [if_neg h1, if_pos (Or.inr h)]

/-- The generic-label stage of `score_domain_company`. -/
theorem score_generic_eq (c d : PyVal)
    (hc : pyTruthy c = true) (hd : pyTruthy d = true)
    (hcomp : normalize_tokens c ≠ "") (hdom : dom_core d ≠ "")
    (hgen : (dom_core d).length < 4 ∨ dom_core d ∈ STOPWORDS) :
    score_domain_company c d = ⟨false, 0, "generic", "Unsure – Please Check"⟩ := by
  unfold score_domain_company
  rw [if_neg (by simp [hc, hd]), if_neg (by simp [hcomp, hdom]), if_pos hgen]

/-- When both guards pass, the generic-label guard does not fire, and neither
containment nor the acronym test hits, `score_domain_company` returns the
fuzzy verdict determined by the fused score. -/
theorem score_fuzzy_eq (c d : PyVal)
    (hc : pyTruthy c = true) (hd : pyTruthy d = true)
    (hcomp : normalize_tokens c ≠ "") (hdom : dom_core d ≠ "")
    (hgen : ¬((dom_core d).length < 4 ∨ dom_core d ∈ STOPWORDS))
    (hcont : containsSeq (dom_core d).data (despaceL (normalize_tokens c).data) = false)
    (hacr : ¬(3 ≤ (make_acronym c).length ∧
      (dom_core d = make_acronym c ∨ startsWithSeq (make_acronym c).data (dom_core d).data = true))) :
    score_domain_company c d =
      if 90 ≤ fused_score c d then ⟨true, fused_score c d, "fuzzy", "Likely Match"⟩
      else if THRESHOLD ≤ fused_score c d then ⟨true, fused_score c d, "fuzzy", "Unsure – Please Check"⟩
      else ⟨false, fused_score c d, "fuzzy", "Likely Not Match"⟩ := by
  unfold score_domain_company
  rw [if_neg (by simp [hc, hd]), if_neg (by simp [hcomp, hdom]), if_neg hgen,
      if_neg (by simp [hcont]), if_neg hacr]
-- appended chunk: C1, C2, C4, C6, C7

/-- C1 (amended): when either input is missing (falsy) or either side is empty
after normalization, `score_domain_company` returns the Likely Not Match
status with score 0 and method "none" — not the Unsure status. -/
theorem C1_guard_stage_verdict (c d : PyVal)
    (h : pyTruthy c = false ∨ pyTruthy d = false ∨ normalize_tokens c = "" ∨ dom_core d = "") :
    (score_domain_company c d).status = "Likely Not Match" ∧
    (score_domain_company c d).score = 0 ∧
    (score_domain_company c d).method = "none" := by
  rw [score_guard_eq c d h]
  exact ⟨rfl, rfl, rfl⟩

theorem C1_guard_stage_verdict_witness :
    (pyTruthy (.pyStr "") = false ∨ pyTruthy (.pyStr "") = false ∨
      normalize_tokens (.pyStr "") = "" ∨ dom_core (.pyStr "tesco.com") = "") ∧
    ((score_domain_company (.pyStr "") (.pyStr "tesco.com")).status = "Likely Not Match" ∧
     (score_domain_company (.pyStr "") (.pyStr "tesco.com")).score = 0 ∧
     (score_domain_company (.pyStr "") (.pyStr "tesco.com")).method = "none") :=
  ⟨Or.inl (by decide), C1_guard_stage_verdict (.pyStr "") (.pyStr "tesco.com") (Or.inl (by decide))⟩

/-- C1 counterexample: for the missing company input "" the scorer's status is
not the Unsure status the claim predicts. -/
theorem C1_cex :
    (score_domain_company (.pyStr "") (.pyStr "tesco.com")).status ≠ "Unsure – Please Check" := by
  decide

set_option maxRecDepth 8000 in
/-- C2 (amended): on ("Tesco PLC", "tesco.com") the scorer returns Likely Match
with score 100, but through the fuzzy stage (method "fuzzy"): the raw domain
keeps its dot-stripped form "tescocom", which is not a substring of "tesco",
so the direct-containment stage does not fire. -/
theorem C2_tesco_fuzzy :
    score_domain_company (.pyStr "Tesco PLC") (.pyStr "tesco.com") =
      ⟨true, 100, "fuzzy", "Likely Match"⟩ := by
  with_unfolding_all decide

set_option maxRecDepth 8000 in
/-- C2 counterexample: the method tag on this input is "fuzzy", not the
containment stage's tag. -/
theorem C2_cex :
    (score_domain_company (.pyStr "Tesco PLC") (.pyStr "tesco.com")).method = "fuzzy" ∧
    "fuzzy" ≠ "contains" ∧ "fuzzy" ≠ "direct containment" := by
  with_unfolding_all decide

/-- C4 (amended): the extractor lowercases, strips scheme/path/www., splits on
dots; with at least two segments it returns the second-to-last segment with a
trailing brandy suffix removed; with fewer than two segments it returns NaN
(none), not the whole cleaned string. -/
theorem C4_extractor_cases :
    clean_domain_elem (.pyStr "https://www.Example.com/path") = some "example" ∧
    clean_domain_elem (.pyStr "localhost") = none ∧
    clean_domain_elem (.pyStr "testgroup.com") = some "test" := by
  decide

/-- C4 counterexample: on the single-segment input "localhost" the extractor
returns NaN (none) instead of the whole cleaned string. -/
theorem C4_cex : clean_domain_elem (.pyStr "localhost") ≠ some "localhost" := by
  decide

/-- C6 (amended): the normalizer is total and always returns a string, but a
null input is stringified first (str(None) = "None"), so it yields "none"
rather than the empty string; the empty string input does yield "". -/
theorem C6_none_behavior :
    normalize_tokens .pyNone = "none" ∧ normalize_tokens (.pyStr "") = "" := by
  decide

/-- C6 counterexample: the null input does not map to the empty string. -/
theorem C6_cex : normalize_tokens .pyNone ≠ "" := by
  decide

/-- C7: the text normalizer is idempotent — re-normalizing its output changes
nothing. -/
theorem C7_normalize_idem (v : PyVal) :
    normalize_tokens (.pyStr (normalize_tokens v)) = normalize_tokens v :=
  congrArg String.mk (normTokensL_idem (pyToString v).data)

/-- C3: whenever the fuzzy fallback stage is reached (both inputs truthy and
nonempty after normalization, domain core of length at least 4, not a stopword,
no containment, no acronym hit), the returned score is the fused score — the
maximum of the sliding (partial) and token-set similarities — and the status is
Likely Match iff fused ≥ 90, Unsure iff 70 ≤ fused < 90, and Likely Not Match
iff fused < 70. -/
theorem C3_fuzzy_thresholds (c d : PyVal)
    (hc : pyTruthy c = true) (hd : pyTruthy d = true)
    (hcomp : normalize_tokens c ≠ "") (hdom : dom_core d ≠ "")
    (hlen : 4 ≤ (dom_core d).length) (hstop : dom_core d ∉ STOPWORDS)
    (hcont : containsSeq (dom_core d).data (despaceL (normalize_tokens c).data) = false)
    (hacr : ¬(3 ≤ (make_acronym c).length ∧
      (dom_core d = make_acronym c ∨ startsWithSeq (make_acronym c).data (dom_core d).data = true))) :
    (score_domain_company c d).score = fused_score c d ∧
    ((score_domain_company c d).status = "Likely Match" ↔ 90 ≤ fused_score c d) ∧
    ((score_domain_company c d).status = "Unsure – Please Check" ↔
      70 ≤ fused_score c d ∧ fused_score c d < 90) ∧
    ((score_domain_company c d).status = "Likely Not Match" ↔ fused_score c d < 70) := by
  have hgen : ¬((dom_core d).length < 4 ∨ dom_core d ∈ STOPWORDS) := by
    push_neg
    exact ⟨by omega, hstop⟩
  have h := score_fuzzy_eq c d hc hd hcomp hdom hgen hcont hacr
  have hT : THRESHOLD = (70 : ℚ) := rfl
  have e1 : ("Likely Match" : String) ≠ "Unsure – Please Check" := by decide
  have e2 : ("Likely Match" : String) ≠ "Likely Not Match" := by decide
  have e3 : ("Unsure – Please Check" : String) ≠ "Likely Match" := by decide
  have e4 : ("Unsure – Please Check" : String) ≠ "Likely Not Match" := by decide
  have e5 : ("Likely Not Match" : String) ≠ "Likely Match" := by decide
  have e6 : ("Likely Not Match" : String) ≠ "Unsure – Please Check" := by decide
  rcases le_or_lt 90 (fused_score c d) with h90 | h90
  · rw [h, if_pos h90]
    refine ⟨rfl, ⟨fun _ => h90, fun _ => rfl⟩, ?_, ?_⟩
    · exact ⟨fun hx => absurd hx e1, fun hx => absurd h90 (not_le.mpr hx.2)⟩
    · exact ⟨fun hx => absurd hx e2, fun hx => absurd h90 (not_le.mpr (by linarith))⟩
  · rcases le_or_lt 70 (fused_score c d) with h70 | h70
    · rw [h, if_neg (not_le.mpr h90), if_pos (by rw [hT]; exact h70)]
      refine ⟨rfl, ?_, ⟨fun _ => ⟨h70, h90⟩, fun _ => rfl⟩, ?_⟩
      · exact ⟨fun hx => absurd hx e3, fun hx => absurd hx (not_le.mpr h90)⟩
      · exact ⟨fun hx => absurd hx e4, fun hx => absurd h70 (not_le.mpr hx)⟩
    · rw [h, if_neg (not_le.mpr h90), if_neg (by rw [hT]; exact not_le.mpr h70)]
      refine ⟨rfl, ?_, ?_, ⟨fun _ => h70, fun _ => rfl⟩⟩
      · exact ⟨fun hx => absurd hx e5, fun hx => absurd hx (not_le.mpr (by linarith))⟩
      · exact ⟨fun hx => absurd hx e6, fun hx => absurd h70 (not_lt.mpr hx.1)⟩

theorem C3_fuzzy_thresholds_witness :
    pyTruthy (.pyStr "abcd efgh") = true ∧ pyTruthy (.pyStr "zzzz") = true ∧
    normalize_tokens (.pyStr "abcd efgh") ≠ "" ∧ dom_core (.pyStr "zzzz") ≠ "" ∧
    4 ≤ (dom_core (.pyStr "zzzz")).length ∧ dom_core (.pyStr "zzzz") ∉ STOPWORDS ∧
    containsSeq (dom_core (.pyStr "zzzz")).data
      (despaceL (normalize_tokens (.pyStr "abcd efgh")).data) = false ∧
    ¬(3 ≤ (make_acronym (.pyStr "abcd efgh")).length ∧
      (dom_core (.pyStr "zzzz") = make_acronym (.pyStr "abcd efgh") ∨
       startsWithSeq (make_acronym (.pyStr "abcd efgh")).data (dom_core (.pyStr "zzzz")).data = true)) ∧
    ((score_domain_company (.pyStr "abcd efgh") (.pyStr "zzzz")).score =
      fused_score (.pyStr "abcd efgh") (.pyStr "zzzz") ∧
     ((score_domain_company (.pyStr "abcd efgh") (.pyStr "zzzz")).status = "Likely Match" ↔
       90 ≤ fused_score (.pyStr "abcd efgh") (.pyStr "zzzz")) ∧
     ((score_domain_company (.pyStr "abcd efgh") (.pyStr "zzzz")).status = "Unsure – Please Check" ↔
       70 ≤ fused_score (.pyStr "abcd efgh") (.pyStr "zzzz") ∧
       fused_score (.pyStr "abcd efgh") (.pyStr "zzzz") < 90) ∧
     ((score_domain_company (.pyStr "abcd efgh") (.pyStr "zzzz")).status = "Likely Not Match" ↔
       fused_score (.pyStr "abcd efgh") (.pyStr "zzzz") < 70)) :=
  ⟨by decide, by decide, by decide, by decide, by decide, by decide, by decide, by decide,
   C3_fuzzy_thresholds (.pyStr "abcd efgh") (.pyStr "zzzz")
     (by decide) (by decide) (by decide) (by decide) (by decide) (by decide) (by decide) (by decide)⟩

theorem collect_pass_nil (pv : List String) (n : Nat) : collect_pass pv n [] = ([], [], []) := rfl

theorem collect_pass_cons (pv : List String) (n : Nat) (v : String) (rest : List String) :
    collect_pass pv n (v :: rest) =
      match map_lookup (pick_map pv) (pyLower (pyStrip v)) with
      | some canon => ("Yes" :: (collect_pass pv (n + 1) rest).1,
          canon :: (collect_pass pv (n + 1) rest).2.1,
          (if canon ≠ v then [n + 2] else []) ++ (collect_pass pv (n + 1) rest).2.2)
      | none => ("No" :: (collect_pass pv (n + 1) rest).1,
          v :: (collect_pass pv (n + 1) rest).2.1,
          (collect_pass pv (n + 1) rest).2.2) := rfl

theorem collect_pass_cons_hit (pv : List String) (n : Nat) (v canon : String) (rest : List String)
    (h : map_lookup (pick_map pv) (pyLower (pyStrip v)) = some canon) :
    collect_pass pv n (v :: rest) =
      ("Yes" :: (collect_pass pv (n + 1) rest).1, canon :: (collect_pass pv (n + 1) rest).2.1,
       (if canon ≠ v then [n + 2] else []) ++ (collect_pass pv (n + 1) rest).2.2) := by
  rw [collect_pass_cons, h]

theorem collect_pass_cons_miss (pv : List String) (n : Nat) (v : String) (rest : List String)
    (h : map_lookup (pick_map pv) (pyLower (pyStrip v)) = none) :
    collect_pass pv n (v :: rest) =
      ("No" :: (collect_pass pv (n + 1) rest).1, v :: (collect_pass pv (n + 1) rest).2.1,
       (collect_pass pv (n + 1) rest).2.2) := by
  rw [collect_pass_cons, h]

/-- Every excel row flagged by the matching loop lies at or beyond the loop's
starting offset plus 2. -/
theorem collect_pass_bound (pv : List String) :
    ∀ (mv : List String) (n : Nat), ∀ j ∈ (collect_pass pv n mv).2.2, n + 2 ≤ j
  | [], n, j, hj => by simp [collect_pass_nil] at hj
  | v :: rest, n, j, hj => by
    cases hml : map_lookup (pick_map pv) (pyLower (pyStrip v)) with
    | some canon =>
      rw [collect_pass_cons_hit pv n v canon rest hml] at hj
      rcases List.mem_append.mp hj with hj | hj
      · by_cases hne : canon ≠ v
        · rw [if_pos hne] at hj
          rcases List.mem_singleton.mp hj with rfl
          omega
        · rw [if_neg hne] at hj
          simp at hj
      · have := collect_pass_bound pv rest (n + 1) j hj
        omega
    | none =>
      rw [collect_pass_cons_miss pv n v rest hml] at hj
      have := collect_pass_bound pv rest (n + 1) j hj
      omega

/-- Specification of the matching loop at a hit: annotation Yes, canonical
value written back, and the record's excel row flagged exactly when the
canonical form differs from the raw value. -/
theorem collect_pass_spec (pv : List String) :
    ∀ (mv : List String) (n i : Nat) (val canon : String),
      mv[i]? = some val →
      map_lookup (pick_map pv) (pyLower (pyStrip val)) = some canon →
      (collect_pass pv n mv).1[i]? = some "Yes" ∧
      (collect_pass pv n mv).2.1[i]? = some canon ∧
      ((n + i + 2) ∈ (collect_pass pv n mv).2.2 ↔ canon ≠ val)
  | [], n, i, val, canon, hval, _ => by simp at hval
  | v :: rest, n, 0, val, canon, hval, hcanon => by
    have hv : v = val := by simpa using hval
    subst hv
    rw [collect_pass_cons_hit pv n v canon rest hcanon]
    refine ⟨by simp, by simp, ?_⟩
    by_cases hne : canon ≠ v
    · rw [if_pos hne]
      exact ⟨fun _ => hne, fun _ => List.mem_append.mpr (Or.inl (List.mem_singleton.mpr rfl))⟩
    · rw [if_neg hne]
      constructor
      · intro hmem
        have hb := collect_pass_bound pv rest (n + 1) (n + 0 + 2) (by simpa using hmem)
        omega
      · intro hcon
        exact absurd hcon hne
  | v :: rest, n, i + 1, val, canon, hval, hcanon => by
    have hrest : rest[i]? = some val := by simpa using hval
    have ih := collect_pass_spec pv rest (n + 1) i val canon hrest hcanon
    have harith : n + 1 + i + 2 = n + (i + 1) + 2 := by omega
    rw [harith] at ih
    cases hml : map_lookup (pick_map pv) (pyLower (pyStrip v)) with
    | some c' =>
      rw [collect_pass_cons_hit pv n v c' rest hml]
      refine ⟨by simpa using ih.1, by simpa using ih.2.1, ?_⟩
      constructor
      · intro hmem
        rcases List.mem_append.mp hmem with hmem | hmem
        · by_cases hne : c' ≠ v
          · rw [if_pos hne] at hmem
            rcases List.mem_singleton.mp hmem with heq
            omega
          · rw [if_neg hne] at hmem
            simp at hmem
        · exact ih.2.2.mp hmem
      · intro hcon
        exact List.mem_append.mpr (Or.inr (ih.2.2.mpr hcon))
    | none =>
      rw [collect_pass_cons_miss pv n v rest hml]
      exact ⟨by simpa using ih.1, by simpa using ih.2.1, ih.2.2⟩

/-- C5: in a field pass with both columns present, a case/whitespace-insensitive
vocabulary hit annotates the record Yes, overwrites the value with the
picklist's canonical form, and flags the cell for correction exactly when the
canonical form differs from the original raw string. -/
theorem C5_vocab_hit (pv mv : List String) (i : Nat) (val canon : String)
    (hval : mv[i]? = some val)
    (hcanon : map_lookup (pick_map pv) (pyLower (pyStrip val)) = some canon) :
    (run_pair (some mv) (some pv) mv.length).annots[i]? = some "Yes" ∧
    ((run_pair (some mv) (some pv) mv.length).newVals.getD [])[i]? = some canon ∧
    ((i + 2) ∈ (run_pair (some mv) (some pv) mv.length).corrected ↔ canon ≠ val) := by
  have h := collect_pass_spec pv mv 0 i val canon hval hcanon
  exact ⟨h.1, h.2.1, by simpa using h.2.2⟩

theorem C5_vocab_hit_witness :
    (["finance "] : List String)[0]? = some "finance " ∧
    map_lookup (pick_map ["Finance"]) (pyLower (pyStrip "finance ")) = some "Finance" ∧
    ((run_pair (some ["finance "]) (some ["Finance"]) (["finance "] : List String).length).annots[0]? =
       some "Yes" ∧
     ((run_pair (some ["finance "]) (some ["Finance"]) (["finance "] : List String).length).newVals.getD
       [])[0]? = some "Finance" ∧
     ((0 + 2) ∈ (run_pair (some ["finance "]) (some ["Finance"])
         (["finance "] : List String).length).corrected ↔ ("Finance" : String) ≠ "finance ")) :=
  ⟨by decide, by decide,
   C5_vocab_hit ["Finance"] ["finance "] 0 "finance " "Finance" (by decide) (by decide)⟩

/-- C8: seniority tiers are tested in the fixed precedence order, so whenever
the Manager keywords occur and no earlier tier's keywords occur, the tier is
Manager — even when later tiers such as Senior also match. -/
theorem C8_manager_precedence (s : String)
    (hm : hasAnyWord MANAGER_WORDS (pyStrip (pyLower s)) = true)
    (h1 : hasAnyWord CSUITE_WORDS (pyStrip (pyLower s)) = false)
    (h2 : hasAnyWord VP_WORDS (pyStrip (pyLower s)) = false)
    (h3 : hasAnyWord HEAD_WORDS (pyStrip (pyLower s)) = false)
    (h4 : hasAnyWord DIRECTOR_WORDS (pyStrip (pyLower s)) = false) :
    parse_seniority (.pyStr s) = ("Manager", "keyword: manager/mgr") := by
  simp [parse_seniority, h1, h2, h3, h4, hm]

theorem C8_manager_precedence_witness :
    hasAnyWord MANAGER_WORDS (pyStrip (pyLower "Senior Manager")) = true ∧
    hasAnyWord SENIOR_WORDS (pyStrip (pyLower "Senior Manager")) = true ∧
    hasAnyWord CSUITE_WORDS (pyStrip (pyLower "Senior Manager")) = false ∧
    hasAnyWord VP_WORDS (pyStrip (pyLower "Senior Manager")) = false ∧
    hasAnyWord HEAD_WORDS (pyStrip (pyLower "Senior Manager")) = false ∧
    hasAnyWord DIRECTOR_WORDS (pyStrip (pyLower "Senior Manager")) = false ∧
    parse_seniority (.pyStr "Senior Manager") = ("Manager", "keyword: manager/mgr") :=
  ⟨by decide, by decide, by decide, by decide, by decide, by decide,
   C8_manager_precedence "Senior Manager" (by decide) (by decide) (by decide) (by decide) (by decide)⟩

/-- C9: when the master column or the picklist column is absent, every record
receives the Column Missing annotation, the master values are left untouched,
and no correction is recorded (the pass is total, so the run does not abort). -/
theorem C9_column_missing (masterVals pickVals : Option (List String)) (n : Nat)
    (h : masterVals = none ∨ pickVals = none) :
    (run_pair masterVals pickVals n).annots = List.replicate n "Column Missing" ∧
    (run_pair masterVals pickVals n).newVals = masterVals ∧
    (run_pair masterVals pickVals n).corrected = [] := by
  rcases h with rfl | rfl
  · cases pickVals <;> exact ⟨rfl, rfl, rfl⟩
  · cases masterVals <;> exact ⟨rfl, rfl, rfl⟩

theorem C9_column_missing_witness :
    ((some ["a"] : Option (List String)) = none ∨ (none : Option (List String)) = none) ∧
    ((run_pair (some ["a"]) none 1).annots = List.replicate 1 "Column Missing" ∧
     (run_pair (some ["a"]) none 1).newVals = some ["a"] ∧
     (run_pair (some ["a"]) none 1).corrected = []) :=
  ⟨Or.inr rfl, C9_column_missing (some ["a"]) none 1 (Or.inr rfl)⟩

/-- C10: a weak-fuzzy verdict (fused score in [70, 90) at the fuzzy stage)
returns is_match = True with the Unsure status, so the Domain_Match cell reads
"Yes"; the generic-label guard's Unsure verdict instead returns is_match =
False and the cell reads "No". -/
theorem C10_weak_fuzzy_vs_generic (c d : PyVal) :
    (pyTruthy c = true → pyTruthy d = true →
      normalize_tokens c ≠ "" → dom_core d ≠ "" →
      4 ≤ (dom_core d).length → dom_core d ∉ STOPWORDS →
      containsSeq (dom_core d).data (despaceL (normalize_tokens c).data) = false →
      ¬(3 ≤ (make_acronym c).length ∧ (dom_core d = make_acronym c ∨
        startsWithSeq (make_acronym c).data (dom_core d).data = true)) →
      70 ≤ fused_score c d → fused_score c d < 90 →
      (score_domain_company c d).is_match = true ∧
      (score_domain_company c d).status = "Unsure – Please Check" ∧
      match_cell (score_domain_company c d).is_match = "Yes") ∧
    (pyTruthy c = true → pyTruthy d = true →
      normalize_tokens c ≠ "" → dom_core d ≠ "" →
      ((dom_core d).length < 4 ∨ dom_core d ∈ STOPWORDS) →
      (score_domain_company c d).is_match = false ∧
      (score_domain_company c d).status = "Unsure – Please Check" ∧
      match_cell (score_domain_company c d).is_match = "No") := by
  constructor
  · intro hc hd hcomp hdom hlen hstop hcont hacr h70 h90
    have hgen : ¬((dom_core d).length < 4 ∨ dom_core d ∈ STOPWORDS) := by
      push_neg
      exact ⟨by omega, hstop⟩
    have h := score_fuzzy_eq c d hc hd hcomp hdom hgen hcont hacr
    have hT : THRESHOLD = (70 : ℚ) := rfl
    rw [h, if_neg (not_le.mpr h90), if_pos (by rw [hT]; exact h70)]
    exact ⟨rfl, rfl, rfl⟩
  · intro hc hd hcomp hdom hgen
    rw [score_generic_eq c d hc hd hcomp hdom hgen]
    exact ⟨rfl, rfl, rfl⟩

set_option maxRecDepth 8000 in
theorem C10_weak_fuzzy_vs_generic_witness :
    (70 ≤ fused_score (.pyStr "abcdxfgh") (.pyStr "abcdefgh") ∧
     fused_score (.pyStr "abcdxfgh") (.pyStr "abcdefgh") < 90 ∧
     (score_domain_company (.pyStr "abcdxfgh") (.pyStr "abcdefgh")).is_match = true ∧
     (score_domain_company (.pyStr "abcdxfgh") (.pyStr "abcdefgh")).status = "Unsure – Please Check" ∧
     match_cell (score_domain_company (.pyStr "abcdxfgh") (.pyStr "abcdefgh")).is_match = "Yes") ∧
    ((dom_core (.pyStr "web")).length < 4 ∧
     (score_domain_company (.pyStr "Acme Rockets") (.pyStr "web")).is_match = false ∧
     (score_domain_company (.pyStr "Acme Rockets") (.pyStr "web")).status = "Unsure – Please Check" ∧
     match_cell (score_domain_company (.pyStr "Acme Rockets") (.pyStr "web")).is_match = "No") := by
  have h1 := (C10_weak_fuzzy_vs_generic (.pyStr "abcdxfgh") (.pyStr "abcdefgh")).1
    (by decide) (by decide) (by decide) (by decide) (by decide) (by decide) (by decide) (by decide)
    (by with_unfolding_all decide) (by with_unfolding_all decide)
  have h2 := (C10_weak_fuzzy_vs_generic (.pyStr "Acme Rockets") (.pyStr "web")).2
    (by decide) (by decide) (by decide) (by decide) (Or.inl (by decide))
  exact ⟨⟨by with_unfolding_all decide, by with_unfolding_all decide, h1.1, h1.2.1, h1.2.2⟩,
         ⟨by decide, h2.1, h2.2.1, h2.2.2⟩⟩
